import Mathlib

/-!
Verification of the `zarrs_conventions` crate's core: the identity model
(`Convention`, `ConventionDefinition`, `ConventionId`), the convention
registry, and the nested/prefixed attribute representation protocol.

JSON values are modelled by the inductive `ZC.Json`; `serde_json::Map`
(a `BTreeMap<String, Value>` behind the scenes) is modelled as an
association list whose `insert` replaces the value of an existing key,
which is all the decode paths observe.  Rust `Uuid` and `Uri` values are
modelled as strings (their parsed textual form), since the code under
study only compares, stores and copies them.  Typed serde
encoding/decoding of a convention's own struct is kept abstract: the
decode paths below produce the JSON value that is handed to
`serde_json::from_value`, and round-trip statements quantify over an
arbitrary encode/decode pair.
-/

namespace ZC

/-- JSON value model: `serde_json::Value`, with numbers restricted to the
integers (no claim under study involves floating point). -/
inductive Json where
  | null
  | bool (b : Bool)
  | num (n : Int)
  | str (s : String)
  | arr (items : List Json)
  | obj (entries : List (String × Json))

/-- Model of `serde_json::Map<String, Value>` (the crate's `Attributes`
alias): an association list with unique keys. -/
abbrev Attributes := List (String × Json)

/-- Lookup in an attribute map: `Map::get`, first matching key. -/
def mapGet (m : Attributes) (k : String) : Option Json :=
  match m with
  | [] => none
  | (k', v) :: rest => if k' = k then some v else mapGet rest k

/-- Insertion into an attribute map: `Map::insert`, which replaces the
value of an existing key and otherwise appends a fresh entry. -/
def mapInsert (k : String) (v : Json) (m : Attributes) : Attributes :=
  match m with
  | [] => [(k, v)]
  | (k', v') :: rest =>
      if k' = k then (k, v) :: rest else (k', v') :: mapInsert k v rest

/-- Model of `str::strip_prefix` on character lists: returns the suffix
when the first argument is a prefix of the second. -/
def stripPreList (ps cs : List Char) : Option (List Char) :=
  match ps, cs with
  | [], s => some s
  | _ :: _, [] => none
  | p :: ps', c :: cs' => if p = c then stripPreList ps' cs' else none

/-- Model of `str::strip_prefix` on strings. -/
def stripPre? (pre s : String) : Option String :=
  (stripPreList pre.data s.data).map String.mk

/-- The `(k, v)` pairs of the map whose key starts with `pre`, with the
key's prefix stripped: the `filter_map` stage of `nest_prefixed`. -/
def strippedPairs (pre : String) (m : Attributes) : Attributes :=
  m.filterMap (fun p => (stripPre? pre p.1).map (fun k => (k, p.2)))

/-- The crate's `nest_prefixed(prefix, map, out)`: collect every entry of
`map` whose key starts with `prefix`, strip the prefix, and fold the
results into the accumulator `out` with `Map::insert`. -/
def nest_prefixed (pre : String) (m : Attributes) (out : Attributes) : Json :=
  .obj ((strippedPairs pre m).foldl (fun acc p => mapInsert p.1 p.2 acc) out)

/-- Compile-time constants of a convention type `T` implementing both
`NestedRepr` (`KEY`) and `PrefixedRepr` (`PRE`, the crate's `PREFIX`,
delimiter included). -/
structure ConvType where
  KEY : String
  PRE : String

/-- Structural stage of `NestedRepr::from_attributes_nested`: the JSON
value handed to `serde_json::from_value`, or the key-not-found error. -/
def from_attributes_nested (T : ConvType) (attributes : Attributes) :
    Except String Json :=
  match mapGet attributes T.KEY with
  | none => .error ("Zarr convention key not found: " ++ T.KEY)
  | some v => .ok v

/-- Structural stage of `PrefixedRepr::from_attributes_prefixed`: the JSON
value handed to `serde_json::from_value` (never fails structurally). -/
def from_attributes_prefixed (T : ConvType) (attributes : Attributes) : Json :=
  nest_prefixed T.PRE attributes []

/-- Structural stage of `FromNestedOrPrefixed::from_attributes`: if the
nested key holds an object, that object seeds the accumulator into which
the stripped prefixed entries are folded; a non-object nested value is
used verbatim; with no nested key the prefixed form alone is used. -/
def from_attributes_combined (T : ConvType) (attributes : Attributes) : Json :=
  match mapGet attributes T.KEY with
  | some (.obj m) => nest_prefixed T.PRE attributes m
  | some v => v
  | none => from_attributes_prefixed T attributes

theorem mapGet_mapInsert (k k' : String) (v : Json) (m : Attributes) :
    mapGet (mapInsert k v m) k' = if k = k' then some v else mapGet m k' := by
  induction m with
  | nil => simp [mapInsert, mapGet]
  | cons hd tl ih =>
      obtain ⟨kh, vh⟩ := hd
      by_cases hk : kh = k
      · subst hk
        by_cases hk' : kh = k'
        · subst hk'; simp [mapInsert, mapGet]
        · simp [mapInsert, mapGet, hk']
      · by_cases hk' : kh = k'
        · subst hk'
          have h1 : ¬ k = kh := fun h => hk h.symm
          simp [mapInsert, mapGet, hk, h1]
        · simp [mapInsert, mapGet, hk, hk', ih]

theorem stripPreList_eq_some (ps cs ks : List Char) :
    stripPreList ps cs = some ks ↔ cs = ps ++ ks := by
  induction ps generalizing cs with
  | nil => simp [stripPreList]
  | cons p ps' ih =>
      cases cs with
      | nil => simp [stripPreList]
      | cons c cs' =>
          simp only [stripPreList, List.cons_append, List.cons.injEq]
          by_cases h : p = c
          · rw [if_pos h, ih]
            constructor
            · intro h'; exact ⟨h.symm, h'⟩
            · intro h'; exact h'.2
          · rw [if_neg h]
            constructor
            · intro h'; simp at h'
            · intro h'; exact absurd h'.1.symm h

theorem stripPre_eq_some (pre s k : String) :
    stripPre? pre s = some k ↔ s = pre ++ k := by
  unfold stripPre?
  rw [String.ext_iff, String.data_append]
  constructor
  · intro h
    obtain ⟨ks, hks, hmk⟩ := Option.map_eq_some'.mp h
    have hdata := (stripPreList_eq_some pre.data s.data ks).mp hks
    subst hmk
    exact hdata
  · intro h
    have h2 : stripPreList pre.data s.data = some k.data :=
      (stripPreList_eq_some _ _ _).mpr h
    rw [h2]
    rfl

theorem mapGet_eq_none_iff (m : Attributes) (k : String) :
    mapGet m k = none ↔ k ∉ m.map Prod.fst := by
  induction m with
  | nil => simp [mapGet]
  | cons hd tl ih =>
      obtain ⟨kh, vh⟩ := hd
      simp only [mapGet, List.map_cons, List.mem_cons]
      by_cases hk : kh = k
      · subst hk; simp
      · rw [if_neg hk, ih]
        constructor
        · intro h hor
          rcases hor with h1 | h2
          · exact hk h1.symm
          · exact h h2
        · intro h hm
          exact h (Or.inr hm)

theorem mapGet_foldl_mapInsert (l : Attributes) (out : Attributes) (k : String)
    (h : (l.map Prod.fst).Nodup) :
    mapGet (l.foldl (fun acc p => mapInsert p.1 p.2 acc) out) k =
      (mapGet l k).or (mapGet out k) := by
  induction l generalizing out with
  | nil => simp [mapGet]
  | cons hd tl ih =>
      obtain ⟨kh, vh⟩ := hd
      simp only [List.map_cons, List.nodup_cons] at h
      obtain ⟨hnotmem, hnd⟩ := h
      rw [List.foldl_cons, ih _ hnd]
      by_cases hk : kh = k
      · subst hk
        have htl : mapGet tl kh = none := (mapGet_eq_none_iff tl kh).mpr hnotmem
        simp [mapGet, htl, mapGet_mapInsert]
      · rw [mapGet_mapInsert, if_neg hk]
        simp only [mapGet, if_neg hk]

theorem string_append_left_inj (pre a b : String) :
    pre ++ a = pre ++ b ↔ a = b := by
  constructor
  · intro h
    rw [String.ext_iff, String.data_append, String.data_append] at h
    exact String.ext (List.append_cancel_left h)
  · intro h; rw [h]

theorem mapGet_strippedPairs (pre : String) (m : Attributes) (k : String) :
    mapGet (strippedPairs pre m) k = mapGet m (pre ++ k) := by
  induction m with
  | nil => simp [strippedPairs, mapGet]
  | cons hd tl ih =>
      obtain ⟨k0, v0⟩ := hd
      unfold strippedPairs at ih ⊢
      cases hstrip : stripPre? pre k0 with
      | none =>
          have hne : ¬ k0 = pre ++ k := by
            intro hEq
            have := (stripPre_eq_some pre k0 k).mpr hEq
            rw [hstrip] at this
            simp at this
          simp only [List.filterMap_cons, hstrip, Option.map_none']
          simp [mapGet, hne, ih]
      | some k0' =>
          have hk0 : k0 = pre ++ k0' := (stripPre_eq_some pre k0 k0').mp hstrip
          simp only [List.filterMap_cons, hstrip, Option.map_some']
          by_cases hkk : k0' = k
          · subst hkk
            simp [mapGet, hk0]
          · have hne : ¬ k0 = pre ++ k := by
              rw [hk0, string_append_left_inj]
              exact hkk
            simp [mapGet, hkk, hne, ih]

theorem strippedPairs_keys_nodup (pre : String) (m : Attributes)
    (h : (m.map Prod.fst).Nodup) :
    ((strippedPairs pre m).map Prod.fst).Nodup := by
  induction m with
  | nil => simp [strippedPairs]
  | cons hd tl ih =>
      obtain ⟨k0, v0⟩ := hd
      simp only [List.map_cons, List.nodup_cons] at h
      obtain ⟨hnotmem, hnd⟩ := h
      unfold strippedPairs at ih ⊢
      cases hstrip : stripPre? pre k0 with
      | none => simp only [List.filterMap_cons, hstrip, Option.map_none']
                exact ih hnd
      | some k0' =>
          have hk0 : k0 = pre ++ k0' := (stripPre_eq_some pre k0 k0').mp hstrip
          simp only [List.filterMap_cons, hstrip, Option.map_some', List.map_cons,
            List.nodup_cons]
          refine ⟨?_, ih hnd⟩
          intro hmem
          have h1 : ¬ mapGet (strippedPairs pre tl) k0' = none := by
            intro h0
            exact ((mapGet_eq_none_iff _ _).mp h0) hmem
          have h2 : ¬ mapGet tl (pre ++ k0') = none := by
            rw [← mapGet_strippedPairs]
            exact h1
          have h3 : pre ++ k0' ∈ List.map Prod.fst tl := by
            by_contra hcontra
            exact h2 ((mapGet_eq_none_iff _ _).mpr hcontra)
          rw [← hk0] at h3
          exact hnotmem h3

/-- C1, counterexample: the claim says that when the nested key holds an
object, a field-name collision is resolved in favour of the nested
object's value.  At the concrete map `{"T": {"b": 1}, "T:b": 2}` for a
convention with `KEY = "T"` and `PREFIX = "T:"`, the combined decode
produces the merged record `{"b": 2}`: the prefixed value `2` replaced
the nested value `1`, so the nested value does not take precedence. -/
theorem c1_nested_precedence_counterexample :
    from_attributes_combined ⟨"T", "T:"⟩
        [("T", Json.obj [("b", Json.num 1)]), ("T:b", Json.num 2)] =
      Json.obj [("b", Json.num 2)] ∧ Json.num 2 ≠ Json.num 1 := by
  constructor
  · rfl
  · intro h
    injection h with h'
    exact absurd h' (by decide)

/-- C1, amended: for every convention type `T` implementing both nested
and prefixed representations, and every attribute map (with unique keys,
as JSON objects have) in which `T`'s nested `KEY` is present with a JSON
object value, the combined decode merges that nested object with the
fields collected from top-level keys starting with `T`'s `PREFIX`, and on
a field-name collision the PREFIXED value takes precedence over the
nested object's value, before the merged record is deserialized. -/
theorem c1_combined_merge_amended (T : ConvType) (attrs m : Attributes)
    (hnodup : (attrs.map Prod.fst).Nodup)
    (hnested : mapGet attrs T.KEY = some (.obj m)) :
    ∃ mm, from_attributes_combined T attrs = .obj mm ∧
      ∀ k, mapGet mm k = (mapGet attrs (T.PRE ++ k)).or (mapGet m k) := by
  refine ⟨(strippedPairs T.PRE attrs).foldl (fun acc p => mapInsert p.1 p.2 acc) m,
    ?_, ?_⟩
  · unfold from_attributes_combined
    rw [hnested]
    rfl
  · intro k
    rw [mapGet_foldl_mapInsert _ _ _ (strippedPairs_keys_nodup _ _ hnodup),
      mapGet_strippedPairs]

/-- C1, witness for the amended theorem at the concrete attribute map
`{"T": {"b": 1, "c": 3}, "T:b": 2}`. -/
theorem c1_combined_merge_amended_witness :
    ∃ mm, from_attributes_combined ⟨"T", "T:"⟩
        [("T", Json.obj [("b", Json.num 1), ("c", Json.num 3)]),
          ("T:b", Json.num 2)] = Json.obj mm ∧
      ∀ k, mapGet mm k =
        (mapGet [("T", Json.obj [("b", Json.num 1), ("c", Json.num 3)]),
          ("T:b", Json.num 2)] ("T:" ++ k)).or
          (mapGet [("b", Json.num 1), ("c", Json.num 3)] k) :=
  c1_combined_merge_amended ⟨"T", "T:"⟩ _ _ (by decide) rfl

/-- C5: for every convention type `T` implementing both nested and
prefixed representations, if `T`'s nested `KEY` is present in the
attribute map but its value is not a JSON object, the combined decode
deserializes exactly that nested value and ignores all prefixed keys. -/
theorem c5_nested_nonobject_overrides (T : ConvType) (attrs : Attributes)
    (v : Json) (h1 : mapGet attrs T.KEY = some v) (h2 : ∀ m, v ≠ .obj m) :
    from_attributes_combined T attrs = v := by
  unfold from_attributes_combined
  rw [h1]
  cases v with
  | obj m => exact absurd rfl (h2 m)
  | null => rfl
  | bool b => rfl
  | num n => rfl
  | str s => rfl
  | arr items => rfl

/-- C5, witness: with nested value `5` for key `"T"` and a prefixed key
`"T:b" = 2`, the combined decode is driven by the value `5` alone. -/
theorem c5_nested_nonobject_overrides_witness :
    from_attributes_combined ⟨"T", "T:"⟩
        [("T", Json.num 5), ("T:b", Json.num 2)] = Json.num 5 :=
  c5_nested_nonobject_overrides _ _ _ rfl (fun _ h => Json.noConfusion h)

/-- The crate's `ConventionDefinition`: all five fields are always
present.  `Uuid` and `&'static Uri` values are modelled as strings. -/
structure ConventionDefinition where
  uuid : String
  schema_url : String
  spec_url : String
  name : String
  description : String
deriving DecidableEq, Repr

/-- The crate's `ConventionId`: a tagged union over the three identifier
kinds. -/
inductive ConventionId where
  | uuid (u : String)
  | schemaUrl (u : String)
  | specUrl (u : String)
deriving DecidableEq, Repr

/-- The three accessors `ConventionDefinition::{id_uuid, id_schema,
id_spec}`. -/
def ConventionDefinition.id_uuid (d : ConventionDefinition) : ConventionId :=
  .uuid d.uuid

def ConventionDefinition.id_schema (d : ConventionDefinition) : ConventionId :=
  .schemaUrl d.schema_url

def ConventionDefinition.id_spec (d : ConventionDefinition) : ConventionId :=
  .specUrl d.spec_url

/-- A `BTreeMap` keyed by strings: an association list kept strictly
sorted by key.  `btInsert` returns the previous value at the key (the
return value of `BTreeMap::insert`) together with the updated map. -/
def btInsert (k : String) (v : α) :
    List (String × α) → Option α × List (String × α)
  | [] => (none, [(k, v)])
  | (k', v') :: rest =>
      if k < k' then (none, (k, v) :: (k', v') :: rest)
      else if k = k' then (some v', (k, v) :: rest)
      else
        let r := btInsert k v rest
        (r.1, (k', v') :: r.2)

/-- Lookup in a `BTreeMap` model: `BTreeMap::get` (and `contains_key`,
via `Option.isSome`). -/
def btLookup (m : List (String × α)) (k : String) : Option α :=
  match m with
  | [] => none
  | (k', v) :: rest => if k = k' then some v else btLookup rest k

/-- The registry's interior (`ConventionRegistryInner`): the same
definition stored under each of its three identifier kinds. -/
structure RegistryInner where
  uuid_reg : List (String × ConventionDefinition)
  schema_reg : List (String × ConventionDefinition)
  spec_reg : List (String × ConventionDefinition)
deriving Repr

/-- The empty registry (`ConventionRegistry::default`). -/
def emptyRegistry : RegistryInner := ⟨[], [], []⟩

/-- The error cases of `ConventionRegistry::register`, carrying the
identifier reported in the error message. -/
inductive DupIdError where
  | uuid (u : String)
  | schemaUrl (u : String)
  | specUrl (u : String)
deriving DecidableEq, Repr

/-- The crate's `ConventionRegistry::register::<T>()` for a definition
`d`: insert `d` under its uuid, then its schema URL, then its spec URL,
returning early with an error as soon as one insert reports that the key
was already present.  The mutation performed by an insert is kept even
when that insert or a later one reports a duplicate. -/
def register (r : RegistryInner) (d : ConventionDefinition) :
    RegistryInner × Option DupIdError :=
  let u := btInsert d.uuid d r.uuid_reg
  let r1 : RegistryInner := { r with uuid_reg := u.2 }
  if u.1.isSome then (r1, some (.uuid d.uuid))
  else
    let s := btInsert d.schema_url d r1.schema_reg
    let r2 : RegistryInner := { r1 with schema_reg := s.2 }
    if s.1.isSome then (r2, some (.schemaUrl d.schema_url))
    else
      let p := btInsert d.spec_url d r2.spec_reg
      let r3 : RegistryInner := { r2 with spec_reg := p.2 }
      if p.1.isSome then (r3, some (.specUrl d.spec_url))
      else (r3, none)

/-- The crate's `ConventionRegistry::conventions()`: the values of the
uuid-keyed map, in its iteration order. -/
def conventions (r : RegistryInner) : List ConventionDefinition :=
  r.uuid_reg.map Prod.snd

/-- The crate's `ConventionRegistry::get`: lookup against the key set
matching the `ConventionId` variant. -/
def registryGet (r : RegistryInner) (id : ConventionId) :
    Option ConventionDefinition :=
  match id with
  | .uuid u => btLookup r.uuid_reg u
  | .schemaUrl u => btLookup r.schema_reg u
  | .specUrl u => btLookup r.spec_reg u

/-- The crate's `ConventionRegistry::contains`. -/
def registryContains (r : RegistryInner) (id : ConventionId) : Bool :=
  match id with
  | .uuid u => (btLookup r.uuid_reg u).isSome
  | .schemaUrl u => (btLookup r.schema_reg u).isSome
  | .specUrl u => (btLookup r.spec_reg u).isSome

/-- Strict sortedness by key: the `BTreeMap` representation invariant. -/
def BtSorted (m : List (String × α)) : Prop :=
  m.Pairwise (fun a b => a.1 < b.1)

/-- All three key sets of a registry are sorted. -/
def RegistrySorted (r : RegistryInner) : Prop :=
  BtSorted r.uuid_reg ∧ BtSorted r.schema_reg ∧ BtSorted r.spec_reg

/-- Every entry of the uuid-keyed map is stored under its own uuid, as
`register` always does. -/
def UuidKeyed (r : RegistryInner) : Prop :=
  ∀ kv ∈ r.uuid_reg, kv.1 = kv.2.uuid

theorem btLookup_btInsert (k k' : String) (v : α) (m : List (String × α)) :
    btLookup (btInsert k v m).2 k' =
      if k' = k then some v else btLookup m k' := by
  induction m with
  | nil => simp [btInsert, btLookup]
  | cons hd tl ih =>
      obtain ⟨kh, vh⟩ := hd
      by_cases hlt : k < kh
      · simp only [btInsert, if_pos hlt]
        rfl
      · by_cases heq : k = kh
        · subst heq
          simp only [btInsert, if_neg hlt, if_pos rfl]
          by_cases hk' : k' = k
          · subst hk'; simp [btLookup]
          · simp [btLookup, hk']
        · simp only [btInsert, if_neg hlt, if_neg heq]
          by_cases hk' : k' = kh
          · subst hk'
            have h1 : ¬ k' = k := fun h => heq h.symm
            simp [btLookup, h1]
          · simp [btLookup, hk', ih]

theorem btLookup_eq_none_of_lt (m : List (String × α)) (k : String)
    (h : ∀ kv ∈ m, k < kv.1) : btLookup m k = none := by
  induction m with
  | nil => rfl
  | cons hd tl ih =>
      obtain ⟨kh, vh⟩ := hd
      have hlt : k < kh := h (kh, vh) (List.mem_cons_self _ _)
      simp only [btLookup, if_neg (ne_of_lt hlt)]
      exact ih (fun kv hkv => h kv (List.mem_cons_of_mem _ hkv))

theorem btInsert_old (k : String) (v : α) (m : List (String × α))
    (hs : BtSorted m) : (btInsert k v m).1 = btLookup m k := by
  induction m with
  | nil => simp [btInsert, btLookup]
  | cons hd tl ih =>
      obtain ⟨kh, vh⟩ := hd
      rw [BtSorted, List.pairwise_cons] at hs
      obtain ⟨hall, htl⟩ := hs
      simp only [btInsert, btLookup]
      by_cases hlt : k < kh
      · have hne : ¬ k = kh := ne_of_lt hlt
        have hnotin : btLookup tl k = none :=
          btLookup_eq_none_of_lt tl k (fun kv hkv => lt_trans hlt (hall kv hkv))
        rw [if_pos hlt, if_neg hne, hnotin]
      · rw [if_neg hlt]
        by_cases heq : k = kh
        · rw [if_pos heq, if_pos heq]
        · rw [if_neg heq, if_neg heq]
          exact ih htl

theorem btInsert_mem (k : String) (v : α) (m : List (String × α))
    (kv : String × α) (h : kv ∈ (btInsert k v m).2) : kv = (k, v) ∨ kv ∈ m := by
  induction m with
  | nil => simpa [btInsert] using h
  | cons hd tl ih =>
      obtain ⟨kh, vh⟩ := hd
      by_cases hlt : k < kh
      · simp only [btInsert, if_pos hlt] at h
        simpa using h
      · by_cases heq : k = kh
        · subst heq
          simp only [btInsert, if_neg hlt, if_pos rfl] at h
          rcases List.mem_cons.mp h with h1 | h2
          · exact Or.inl h1
          · exact Or.inr (List.mem_cons_of_mem _ h2)
        · simp only [btInsert, if_neg hlt, if_neg heq] at h
          rcases List.mem_cons.mp h with h1 | h2
          · exact Or.inr (h1 ▸ List.mem_cons_self _ _)
          · rcases ih h2 with h3 | h4
            · exact Or.inl h3
            · exact Or.inr (List.mem_cons_of_mem _ h4)

theorem btInsert_sorted (k : String) (v : α) (m : List (String × α))
    (hs : BtSorted m) : BtSorted (btInsert k v m).2 := by
  induction m with
  | nil => simp [btInsert, BtSorted]
  | cons hd tl ih =>
      obtain ⟨kh, vh⟩ := hd
      rw [BtSorted, List.pairwise_cons] at hs
      obtain ⟨hall, htl⟩ := hs
      by_cases hlt : k < kh
      · simp only [btInsert, if_pos hlt]
        rw [BtSorted, List.pairwise_cons]
        refine ⟨?_, ?_⟩
        · intro kv hkv
          rcases List.mem_cons.mp hkv with h1 | h2
          · rw [h1]; exact hlt
          · exact lt_trans hlt (hall kv h2)
        · rw [List.pairwise_cons]
          exact ⟨hall, htl⟩
      · by_cases heq : k = kh
        · subst heq
          have hins : btInsert k v ((k, vh) :: tl) = (some vh, (k, v) :: tl) := by
            simp [btInsert, hlt]
          rw [hins]
          rw [BtSorted, List.pairwise_cons]
          exact ⟨hall, htl⟩
        · simp only [btInsert, if_neg hlt, if_neg heq]
          rw [BtSorted, List.pairwise_cons]
          refine ⟨?_, ih htl⟩
          intro kv hkv
          rcases btInsert_mem k v tl kv hkv with h1 | h2
          · rw [h1]
            rcases lt_trichotomy k kh with h | h | h
            · exact absurd h hlt
            · exact absurd h heq
            · exact h
          · exact hall kv h2

theorem register_success_eq (r : RegistryInner) (d : ConventionDefinition)
    (hs : RegistrySorted r)
    (h1 : btLookup r.uuid_reg d.uuid = none)
    (h2 : btLookup r.schema_reg d.schema_url = none)
    (h3 : btLookup r.spec_reg d.spec_url = none) :
    register r d =
      (⟨(btInsert d.uuid d r.uuid_reg).2, (btInsert d.schema_url d r.schema_reg).2,
        (btInsert d.spec_url d r.spec_reg).2⟩, none) := by
  obtain ⟨hsu, hss, hsp⟩ := hs
  simp only [register, btInsert_old _ _ _ hsu, btInsert_old _ _ _ hss,
    btInsert_old _ _ _ hsp, h1, h2, h3, Option.isSome_none, Bool.false_eq_true,
    if_false]

theorem register_uuid_dup_eq (r : RegistryInner) (d : ConventionDefinition)
    (hs : RegistrySorted r) (h1 : (btLookup r.uuid_reg d.uuid).isSome) :
    register r d =
      ({ r with uuid_reg := (btInsert d.uuid d r.uuid_reg).2 },
        some (.uuid d.uuid)) := by
  obtain ⟨hsu, hss, hsp⟩ := hs
  simp only [register, btInsert_old _ _ _ hsu, h1, if_true]

theorem register_schema_dup_eq (r : RegistryInner) (d : ConventionDefinition)
    (hs : RegistrySorted r)
    (h1 : btLookup r.uuid_reg d.uuid = none)
    (h2 : (btLookup r.schema_reg d.schema_url).isSome) :
    register r d =
      ({ r with
          uuid_reg := (btInsert d.uuid d r.uuid_reg).2
          schema_reg := (btInsert d.schema_url d r.schema_reg).2 },
        some (.schemaUrl d.schema_url)) := by
  obtain ⟨hsu, hss, hsp⟩ := hs
  simp only [register, btInsert_old _ _ _ hsu, btInsert_old _ _ _ hss, h1, h2,
    Option.isSome_none, Bool.false_eq_true, if_false, if_true]

theorem register_spec_dup_eq (r : RegistryInner) (d : ConventionDefinition)
    (hs : RegistrySorted r)
    (h1 : btLookup r.uuid_reg d.uuid = none)
    (h2 : btLookup r.schema_reg d.schema_url = none)
    (h3 : (btLookup r.spec_reg d.spec_url).isSome) :
    register r d =
      ({ r with
          uuid_reg := (btInsert d.uuid d r.uuid_reg).2
          schema_reg := (btInsert d.schema_url d r.schema_reg).2
          spec_reg := (btInsert d.spec_url d r.spec_reg).2 },
        some (.specUrl d.spec_url)) := by
  obtain ⟨hsu, hss, hsp⟩ := hs
  simp only [register, btInsert_old _ _ _ hsu, btInsert_old _ _ _ hss,
    btInsert_old _ _ _ hsp, h1, h2, h3, Option.isSome_none, Bool.false_eq_true,
    if_false, if_true]

theorem register_preserves_sorted (r : RegistryInner) (d : ConventionDefinition)
    (hs : RegistrySorted r) : RegistrySorted (register r d).1 := by
  obtain ⟨h1, h2, h3⟩ := hs
  simp only [register]
  split
  · exact ⟨btInsert_sorted _ _ _ h1, h2, h3⟩
  · split
    · exact ⟨btInsert_sorted _ _ _ h1, btInsert_sorted _ _ _ h2, h3⟩
    · split
      · exact ⟨btInsert_sorted _ _ _ h1, btInsert_sorted _ _ _ h2,
          btInsert_sorted _ _ _ h3⟩
      · exact ⟨btInsert_sorted _ _ _ h1, btInsert_sorted _ _ _ h2,
          btInsert_sorted _ _ _ h3⟩

theorem register_preserves_uuidKeyed (r : RegistryInner)
    (d : ConventionDefinition) (h : UuidKeyed r) :
    UuidKeyed (register r d).1 := by
  have hins : ∀ kv ∈ (btInsert d.uuid d r.uuid_reg).2, kv.1 = kv.2.uuid := by
    intro kv hkv
    rcases btInsert_mem _ _ _ _ hkv with h1 | h2
    · rw [h1]
    · exact h kv h2
  simp only [register]
  split
  · exact hins
  · split
    · exact hins
    · split
      · exact hins
      · exact hins

/-- The crate's `Convention`: partial identity data, every field
optional. -/
structure Convention where
  uuid : Option String
  schema_url : Option String
  spec_url : Option String
  name : Option String
  description : Option String
deriving DecidableEq, Repr

/-- The crate's `ConventionBuilder`: same five optional fields, no
validation until `build()`. -/
structure ConventionBuilder where
  uuid : Option String
  schema_url : Option String
  spec_url : Option String
  name : Option String
  description : Option String
deriving DecidableEq, Repr

/-- The crate's `ConventionBuilder::build`: fails when none of the three
identifier fields is set, succeeds otherwise. -/
def ConventionBuilder.build (b : ConventionBuilder) : Except String Convention :=
  if b.uuid.isNone && b.schema_url.isNone && b.spec_url.isNone then
    .error "At least one of uuid, schema_url, or spec_url must be set"
  else
    .ok ⟨b.uuid, b.schema_url, b.spec_url, b.name, b.description⟩

/-- Extraction of one optional string-valued field from a JSON object, as
the serde-derived `Deserialize` of an `Option<Uuid/UriBuf/String>` field
does: absent is `none`, a string parses, any other shape is a type
error.  Syntactic validation of uuid/URI strings is abstracted away. -/
def getStrField (m : Attributes) (k : String) : Except String (Option String) :=
  match mapGet m k with
  | none => .ok none
  | some (.str s) => .ok (some s)
  | some _ => .error ("invalid type for field: " ++ k)

/-- Field-wise extraction of a `ConventionBuilder` from the entries of a
JSON object, as the serde derive does. -/
def conventionBuilderFromObj (m : Attributes) :
    Except String ConventionBuilder :=
  match getStrField m "uuid" with
  | .error e => .error e
  | .ok uuid =>
      match getStrField m "schema_url" with
      | .error e => .error e
      | .ok schema_url =>
          match getStrField m "spec_url" with
          | .error e => .error e
          | .ok spec_url =>
              match getStrField m "name" with
              | .error e => .error e
              | .ok name =>
                  match getStrField m "description" with
                  | .error e => .error e
                  | .ok description =>
                      .ok ⟨uuid, schema_url, spec_url, name, description⟩

/-- The serde-derived `Deserialize` of `ConventionBuilder`: field-wise
extraction from a JSON object; a non-object input fails. -/
def conventionBuilderFromJson (j : Json) : Except String ConventionBuilder :=
  match j with
  | .obj m => conventionBuilderFromObj m
  | _ => .error "expected a JSON object"

/-- The crate's manual `Deserialize for Convention`: deserialize a
`ConventionBuilder`, then run `build()`, so decode applies the same
invariant as construction. -/
def conventionFromJson (j : Json) : Except String Convention :=
  (conventionBuilderFromJson j).bind ConventionBuilder.build

/-- The crate's `Convention::id`: prefer uuid, then schema URL, then spec
URL.  The `none` result models the `unreachable!` panic branch, which
construction via the builder makes unreachable. -/
def Convention.id (c : Convention) : Option ConventionId :=
  match c.uuid with
  | some u => some (.uuid u)
  | none =>
      match c.schema_url with
      | some s => some (.schemaUrl s)
      | none =>
          match c.spec_url with
          | some s => some (.specUrl s)
          | none => none

/-- The crate's `ZarrConventions`: the three deduplicated identifier sets
collected from the `"zarr_conventions"` attribute (`BTreeSet`s, modelled
as lists; only membership is consulted here). -/
structure ZarrConventions where
  uuids : List String
  schema_urls : List String
  spec_urls : List String

/-- A convention type together with its `DEFINITION` constant
(`ZarrConventionImpl`). -/
structure ConvImpl extends ConvType where
  definition : ConventionDefinition

/-- The crate's `ZarrConventionImpl::in_use`: any of the three
identifiers appears in the corresponding in-use set. -/
def in_use (T : ConvImpl) (zc : ZarrConventions) : Prop :=
  T.definition.uuid ∈ zc.uuids ∨ T.definition.schema_url ∈ zc.schema_urls ∨
    T.definition.spec_url ∈ zc.spec_urls

instance (T : ConvImpl) (zc : ZarrConventions) : Decidable (in_use T zc) := by
  unfold in_use
  infer_instance

/-- The crate's `AttributesParser`: the parsed in-use set plus all the
remaining fields, kept verbatim. -/
structure AttributesParser where
  zarr_conventions : ZarrConventions
  fields : Attributes

/-- The crate's `AttributesParser::parse_nested::<T>`: `None` when `T` is
not in use, otherwise the nested decode (its structural stage). -/
def parse_nested (T : ConvImpl) (p : AttributesParser) :
    Except String (Option Json) :=
  if ¬ in_use T p.zarr_conventions then .ok none
  else (from_attributes_nested T.toConvType p.fields).map some

/-- The crate's `AttributesParser::parse_prefixed::<T>`: `None` when `T`
is not in use, otherwise the prefixed decode (structurally total). -/
def parse_prefixed (T : ConvImpl) (p : AttributesParser) :
    Except String (Option Json) :=
  if ¬ in_use T p.zarr_conventions then .ok none
  else .ok (some (from_attributes_prefixed T.toConvType p.fields))

/-- The crate's `AttributesParser::parse::<T>` (combined nested or
prefixed): `None` when `T` is not in use. -/
def parse (T : ConvImpl) (p : AttributesParser) :
    Except String (Option Json) :=
  if ¬ in_use T p.zarr_conventions then .ok none
  else .ok (some (from_attributes_combined T.toConvType p.fields))

/-- Typed nested encode (`NestedRepr::to_attributes_nested`) for a type
with serde encoder `encode`: insert the encoded value under `KEY`,
overwriting any existing value there. -/
def to_attributes_nested (KEY : String) (encode : α → Json) (v : α)
    (output : Attributes) : Attributes :=
  mapInsert KEY (encode v) output

/-- Typed nested decode: the structural stage of
`from_attributes_nested` followed by the type's serde decoder. -/
def from_attributes_nested_as (T : ConvType)
    (decode : Json → Except String α) (attributes : Attributes) :
    Except String α :=
  (from_attributes_nested T attributes).bind decode

/-- C3: for every convention type `T` and every parsed attribute map
whose in-use sets contain none of `T`'s three identifiers, `parse_nested`,
`parse_prefixed` and `parse` each return `Ok(None)` — absent, not an
error — even if `T`'s nested key or prefixed keys are present in the
map. -/
theorem c3_not_in_use_absent (T : ConvImpl) (p : AttributesParser)
    (h1 : T.definition.uuid ∉ p.zarr_conventions.uuids)
    (h2 : T.definition.schema_url ∉ p.zarr_conventions.schema_urls)
    (h3 : T.definition.spec_url ∉ p.zarr_conventions.spec_urls) :
    parse_nested T p = .ok none ∧ parse_prefixed T p = .ok none ∧
      parse T p = .ok none := by
  have hnot : ¬ in_use T p.zarr_conventions := by
    intro h
    rcases h with h | h | h
    · exact h1 h
    · exact h2 h
    · exact h3 h
  unfold parse_nested parse_prefixed parse
  rw [if_pos hnot, if_pos hnot, if_pos hnot]
  exact ⟨rfl, rfl, rfl⟩

/-- C3, witness: a parser with empty in-use sets whose map nevertheless
holds the nested key `"k"` and a prefixed key `"k:x"`. -/
theorem c3_not_in_use_absent_witness :
    parse_nested ⟨⟨"k", "k:"⟩, ⟨"u1", "s1", "p1", "n", "d"⟩⟩
        ⟨⟨[], [], []⟩, [("k", Json.null), ("k:x", Json.num 1)]⟩ = .ok none ∧
      parse_prefixed ⟨⟨"k", "k:"⟩, ⟨"u1", "s1", "p1", "n", "d"⟩⟩
        ⟨⟨[], [], []⟩, [("k", Json.null), ("k:x", Json.num 1)]⟩ = .ok none ∧
      parse ⟨⟨"k", "k:"⟩, ⟨"u1", "s1", "p1", "n", "d"⟩⟩
        ⟨⟨[], [], []⟩, [("k", Json.null), ("k:x", Json.num 1)]⟩ = .ok none :=
  c3_not_in_use_absent _ _ (by simp) (by simp) (by simp)

/-- C4: `ConventionBuilder::build` fails exactly when none of uuid,
schema_url, spec_url was set (regardless of name/description), and
deserializing a `Convention` from a record with no identifier field fails
rather than producing a zero value; any successful decode has at least
one identifier set. -/
theorem c4_build_missing_identifier :
    (∀ b : ConventionBuilder,
      (∃ e, b.build = .error e) ↔
        (b.uuid = none ∧ b.schema_url = none ∧ b.spec_url = none)) ∧
    (∀ m : Attributes, mapGet m "uuid" = none → mapGet m "schema_url" = none →
      mapGet m "spec_url" = none →
      ∃ e, conventionFromJson (.obj m) = .error e) ∧
    (∀ j c, conventionFromJson j = .ok c →
      ¬ (c.uuid = none ∧ c.schema_url = none ∧ c.spec_url = none)) := by
  refine ⟨?_, ?_, ?_⟩
  · intro b
    obtain ⟨u, s, p, n, ds⟩ := b
    cases u <;> cases s <;> cases p <;>
      simp [ConventionBuilder.build]
  · intro m h1 h2 h3
    have g1 : getStrField m "uuid" = .ok none := by simp [getStrField, h1]
    have g2 : getStrField m "schema_url" = .ok none := by
      simp [getStrField, h2]
    have g3 : getStrField m "spec_url" = .ok none := by simp [getStrField, h3]
    show ∃ e, (conventionBuilderFromObj m).bind ConventionBuilder.build =
      .error e
    unfold conventionBuilderFromObj
    rw [g1, g2, g3]
    cases g4 : getStrField m "name" with
    | error e => exact ⟨e, rfl⟩
    | ok nm =>
        cases g5 : getStrField m "description" with
        | error e => exact ⟨e, rfl⟩
        | ok ds => exact ⟨_, rfl⟩
  · intro j c h
    cases j with
    | obj m =>
        have h : (conventionBuilderFromObj m).bind ConventionBuilder.build =
            .ok c := h
        unfold conventionBuilderFromObj at h
        cases g1 : getStrField m "uuid" with
        | error e => rw [g1] at h; simp [Except.bind] at h
        | ok u =>
            rw [g1] at h
            cases g2 : getStrField m "schema_url" with
            | error e => rw [g2] at h; simp [Except.bind] at h
            | ok s =>
                rw [g2] at h
                cases g3 : getStrField m "spec_url" with
                | error e => rw [g3] at h; simp [Except.bind] at h
                | ok p =>
                    rw [g3] at h
                    cases g4 : getStrField m "name" with
                    | error e => rw [g4] at h; simp [Except.bind] at h
                    | ok nm =>
                        rw [g4] at h
                        cases g5 : getStrField m "description" with
                        | error e => rw [g5] at h; simp [Except.bind] at h
                        | ok ds =>
                            rw [g5] at h
                            simp only [Except.bind] at h
                            unfold ConventionBuilder.build at h
                            by_cases hall :
                                (u.isNone && s.isNone && p.isNone) = true
                            · rw [if_pos hall] at h
                              simp at h
                            · rw [if_neg hall] at h
                              simp only [Except.ok.injEq] at h
                              subst h
                              intro hcon
                              obtain ⟨e1, e2, e3⟩ := hcon
                              simp only at e1 e2 e3
                              subst e1; subst e2; subst e3
                              exact hall rfl
    | null => simp [conventionFromJson, conventionBuilderFromJson,
        Except.bind] at h
    | bool b => simp [conventionFromJson, conventionBuilderFromJson,
        Except.bind] at h
    | num n => simp [conventionFromJson, conventionBuilderFromJson,
        Except.bind] at h
    | str s => simp [conventionFromJson, conventionBuilderFromJson,
        Except.bind] at h
    | arr items => simp [conventionFromJson, conventionBuilderFromJson,
        Except.bind] at h

/-- C4, witness: the empty record decodes to a missing-identifier error,
and a builder with only `name` set fails to build. -/
theorem c4_build_missing_identifier_witness :
    (∃ e, conventionFromJson (.obj []) = .error e) ∧
      (∃ e, ConventionBuilder.build ⟨none, none, none, some "n", none⟩ =
        .error e) :=
  ⟨c4_build_missing_identifier.2.1 [] rfl rfl rfl,
    (c4_build_missing_identifier.1 ⟨none, none, none, some "n", none⟩).mpr
      ⟨rfl, rfl, rfl⟩⟩

/-- C7: `Convention::id` returns the `Uuid` variant if `uuid` is set,
else the `SchemaUrl` variant if `schema_url` is set, else the `SpecUrl`
variant. -/
theorem c7_id_preference (c : Convention) :
    (∀ u, c.uuid = some u → c.id = some (.uuid u)) ∧
    (c.uuid = none → ∀ s, c.schema_url = some s →
      c.id = some (.schemaUrl s)) ∧
    (c.uuid = none → c.schema_url = none → ∀ s, c.spec_url = some s →
      c.id = some (.specUrl s)) := by
  refine ⟨?_, ?_, ?_⟩
  · intro u hu
    unfold Convention.id
    rw [hu]
  · intro hu s hs
    unfold Convention.id
    rw [hu, hs]
  · intro hu hs s hp
    unfold Convention.id
    rw [hu, hs, hp]

/-- C7, witness: with all three identifiers set `id()` yields the uuid;
with only schema and spec URLs set it yields the schema URL. -/
theorem c7_id_preference_witness :
    Convention.id ⟨some "u", some "a", some "b", some "n", some "d"⟩ =
        some (.uuid "u") ∧
      Convention.id ⟨none, some "a", some "b", none, none⟩ =
        some (.schemaUrl "a") :=
  ⟨(c7_id_preference _).1 "u" rfl, (c7_id_preference _).2.1 rfl "a" rfl⟩

/-- C9: for every value `v` of a convention type implementing
`NestedRepr` whose serde codec round-trips at `v`, writing `v` with
`to_attributes_nested` and decoding with `from_attributes_nested` yields
`v` again, whatever the map previously held. -/
theorem c9_nested_roundtrip (KEY PRE : String) (encode : α → Json)
    (decode : Json → Except String α) (v : α) (output : Attributes)
    (hcodec : decode (encode v) = .ok v) :
    from_attributes_nested_as ⟨KEY, PRE⟩ decode
      (to_attributes_nested KEY encode v output) = .ok v := by
  unfold from_attributes_nested_as from_attributes_nested
    to_attributes_nested
  rw [mapGet_mapInsert]
  simp [hcodec, Except.bind]

/-- C9, witness: the identity codec on JSON values at `null`. -/
theorem c9_nested_roundtrip_witness :
    from_attributes_nested_as ⟨"k", "k:"⟩ Except.ok
      (to_attributes_nested "k" (fun x => x) Json.null []) =
        .ok Json.null :=
  c9_nested_roundtrip "k" "k:" (fun x => x) Except.ok Json.null [] rfl

/-- The strict form of the derived `Ord` on `ConventionDefinition`:
lexicographic over (uuid, schema_url, spec_url, name, description). -/
def defLt (a b : ConventionDefinition) : Prop :=
  a.uuid < b.uuid ∨ (a.uuid = b.uuid ∧
    (a.schema_url < b.schema_url ∨ (a.schema_url = b.schema_url ∧
      (a.spec_url < b.spec_url ∨ (a.spec_url = b.spec_url ∧
        (a.name < b.name ∨ (a.name = b.name ∧
          a.description < b.description)))))))

theorem defLt_irrefl (a : ConventionDefinition) : ¬ defLt a a := by
  unfold defLt
  simp

/-- C6: `conventions()` lists every definition stored in the uuid-keyed
map exactly once (no duplicates), sorted strictly by the lexicographic
order on (uuid, schema_url, spec_url, name, description).  The
hypotheses are the `BTreeMap` representation invariant and the `register`
invariant that every uuid-map entry is keyed by its own uuid. -/
theorem c6_conventions_sorted_dedup (r : RegistryInner)
    (hs : BtSorted r.uuid_reg) (hk : UuidKeyed r) :
    (conventions r).Pairwise defLt ∧ (conventions r).Nodup ∧
      ∀ d, d ∈ conventions r ↔ ∃ k, (k, d) ∈ r.uuid_reg := by
  have hpw : (r.uuid_reg.map Prod.snd).Pairwise defLt := by
    rw [List.pairwise_map]
    refine hs.imp_of_mem ?_
    intro a b ha hb hab
    unfold defLt
    left
    rw [← hk a ha, ← hk b hb]
    exact hab
  refine ⟨hpw, ?_, ?_⟩
  · exact hpw.imp (fun hab heq => by subst heq; exact defLt_irrefl _ hab)
  · intro d
    unfold conventions
    rw [List.mem_map]
    constructor
    · rintro ⟨⟨k, v⟩, hmem, rfl⟩
      exact ⟨k, hmem⟩
    · rintro ⟨k, hmem⟩
      exact ⟨(k, d), hmem, rfl⟩

/-- Example definitions used by concrete witnesses. -/
def exampleDef : ConventionDefinition :=
  ⟨"11111111-1111-1111-1111-111111111111",
    "https://example.com/schemas/a.json", "https://example.com/specs/a",
    "conv_a", "First example convention."⟩

def exampleDef2 : ConventionDefinition :=
  ⟨"22222222-2222-2222-2222-222222222222",
    "https://example.com/schemas/b.json", "https://example.com/specs/b",
    "conv_b", "Second example convention."⟩

/-- A definition sharing `exampleDef`'s uuid but nothing else. -/
def exampleDefClash : ConventionDefinition :=
  ⟨"11111111-1111-1111-1111-111111111111",
    "https://example.com/schemas/c.json", "https://example.com/specs/c",
    "conv_c", "Clashing example convention."⟩

/-- C6, witness: a two-entry registry in uuid order. -/
theorem c6_conventions_sorted_dedup_witness :
    (conventions ⟨[(exampleDef.uuid, exampleDef),
        (exampleDef2.uuid, exampleDef2)], [], []⟩).Pairwise defLt ∧
      (conventions ⟨[(exampleDef.uuid, exampleDef),
        (exampleDef2.uuid, exampleDef2)], [], []⟩).Nodup ∧
      ∀ d, d ∈ conventions ⟨[(exampleDef.uuid, exampleDef),
          (exampleDef2.uuid, exampleDef2)], [], []⟩ ↔
        ∃ k, (k, d) ∈ [(exampleDef.uuid, exampleDef),
          (exampleDef2.uuid, exampleDef2)] :=
  c6_conventions_sorted_dedup _
    (by
      unfold BtSorted
      refine List.Pairwise.cons ?_ (List.Pairwise.cons ?_ List.Pairwise.nil)
      · intro b hb
        rcases List.mem_singleton.mp hb with rfl
        exact String.lt_iff_toList_lt.mpr (by decide)
      · intro b hb
        simp at hb)
    (by unfold UuidKeyed; decide)

theorem register_none_lookups (r : RegistryInner) (d : ConventionDefinition)
    (hs : RegistrySorted r) (hok : (register r d).2 = none) :
    btLookup r.uuid_reg d.uuid = none ∧
      btLookup r.schema_reg d.schema_url = none ∧
      btLookup r.spec_reg d.spec_url = none := by
  cases hu : btLookup r.uuid_reg d.uuid with
  | some v =>
      rw [register_uuid_dup_eq r d hs (by simp [hu])] at hok
      simp at hok
  | none =>
      cases hsc : btLookup r.schema_reg d.schema_url with
      | some v =>
          rw [register_schema_dup_eq r d hs hu (by simp [hsc])] at hok
          simp at hok
      | none =>
          cases hp : btLookup r.spec_reg d.spec_url with
          | some v =>
              rw [register_spec_dup_eq r d hs hu hsc (by simp [hp])] at hok
              simp at hok
          | none => exact ⟨rfl, rfl, rfl⟩

/-- C8: after a successful `register(D)`, `get` at each of `D.id_uuid()`,
`D.id_schema()`, `D.id_spec()` returns `D`, and `contains` is true for
all three identifiers. -/
theorem c8_register_get_roundtrip (r : RegistryInner)
    (d : ConventionDefinition) (hs : RegistrySorted r)
    (hok : (register r d).2 = none) :
    registryGet (register r d).1 d.id_uuid = some d ∧
      registryGet (register r d).1 d.id_schema = some d ∧
      registryGet (register r d).1 d.id_spec = some d ∧
      registryContains (register r d).1 d.id_uuid = true ∧
      registryContains (register r d).1 d.id_schema = true ∧
      registryContains (register r d).1 d.id_spec = true := by
  obtain ⟨hu, hsc, hp⟩ := register_none_lookups r d hs hok
  rw [register_success_eq r d hs hu hsc hp]
  refine ⟨?_, ?_, ?_, ?_, ?_, ?_⟩ <;>
    simp [registryGet, registryContains, ConventionDefinition.id_uuid,
      ConventionDefinition.id_schema, ConventionDefinition.id_spec,
      btLookup_btInsert]

/-- C8, witness: registering `exampleDef` into the empty registry. -/
theorem c8_register_get_roundtrip_witness :
    registryGet (register emptyRegistry exampleDef).1 exampleDef.id_uuid =
        some exampleDef ∧
      registryGet (register emptyRegistry exampleDef).1 exampleDef.id_schema =
        some exampleDef ∧
      registryGet (register emptyRegistry exampleDef).1 exampleDef.id_spec =
        some exampleDef ∧
      registryContains (register emptyRegistry exampleDef).1
        exampleDef.id_uuid = true ∧
      registryContains (register emptyRegistry exampleDef).1
        exampleDef.id_schema = true ∧
      registryContains (register emptyRegistry exampleDef).1
        exampleDef.id_spec = true :=
  c8_register_get_roundtrip emptyRegistry exampleDef
    ⟨List.Pairwise.nil, List.Pairwise.nil, List.Pairwise.nil⟩ rfl

/-- C2: `register(D)` fails exactly when at least one of `D`'s three
identifiers is already a key (the first three conjuncts name the error
actually produced in each colliding situation, the fourth states success
when no key collides); the error names the duplicated identifier;
insertions already made for the other keys in the same call are not
rolled back (the colliding call still left `D` under the keys inserted
before the collision); and after a failed second registration of the
same definition, `contains` and `get` still report the first
registration. -/
theorem c2_register_duplicate_behaviour (r : RegistryInner)
    (d : ConventionDefinition) (hs : RegistrySorted r) :
    ((btLookup r.uuid_reg d.uuid).isSome →
      (register r d).2 = some (.uuid d.uuid)) ∧
    (btLookup r.uuid_reg d.uuid = none →
      (btLookup r.schema_reg d.schema_url).isSome →
      (register r d).2 = some (.schemaUrl d.schema_url) ∧
        btLookup (register r d).1.uuid_reg d.uuid = some d) ∧
    (btLookup r.uuid_reg d.uuid = none →
      btLookup r.schema_reg d.schema_url = none →
      (btLookup r.spec_reg d.spec_url).isSome →
      (register r d).2 = some (.specUrl d.spec_url) ∧
        btLookup (register r d).1.uuid_reg d.uuid = some d ∧
        btLookup (register r d).1.schema_reg d.schema_url = some d) ∧
    (btLookup r.uuid_reg d.uuid = none →
      btLookup r.schema_reg d.schema_url = none →
      btLookup r.spec_reg d.spec_url = none →
      (register r d).2 = none) ∧
    ((register r d).2 = none →
      (register (register r d).1 d).2 = some (.uuid d.uuid) ∧
      registryGet (register (register r d).1 d).1 d.id_uuid = some d ∧
      registryGet (register (register r d).1 d).1 d.id_schema = some d ∧
      registryGet (register (register r d).1 d).1 d.id_spec = some d ∧
      registryContains (register (register r d).1 d).1 d.id_uuid = true ∧
      registryContains (register (register r d).1 d).1 d.id_schema = true ∧
      registryContains (register (register r d).1 d).1 d.id_spec = true) := by
  refine ⟨?_, ?_, ?_, ?_, ?_⟩
  · intro hu
    rw [register_uuid_dup_eq r d hs hu]
  · intro hu hsc
    rw [register_schema_dup_eq r d hs hu hsc]
    exact ⟨rfl, by simp [btLookup_btInsert]⟩
  · intro hu hsc hp
    rw [register_spec_dup_eq r d hs hu hsc hp]
    exact ⟨rfl, by simp [btLookup_btInsert], by simp [btLookup_btInsert]⟩
  · intro hu hsc hp
    rw [register_success_eq r d hs hu hsc hp]
  · intro hok
    obtain ⟨hu, hsc, hp⟩ := register_none_lookups r d hs hok
    have hs' : RegistrySorted (register r d).1 := register_preserves_sorted r d hs
    have heq1 := register_success_eq r d hs hu hsc hp
    have hu' : (btLookup (register r d).1.uuid_reg d.uuid).isSome := by
      rw [heq1]
      simp [btLookup_btInsert]
    have heq2 := register_uuid_dup_eq (register r d).1 d hs' hu'
    rw [heq2, heq1]
    refine ⟨rfl, ?_, ?_, ?_, ?_, ?_, ?_⟩ <;>
      simp [registryGet, registryContains, ConventionDefinition.id_uuid,
        ConventionDefinition.id_schema, ConventionDefinition.id_spec,
        btLookup_btInsert]

/-- C2, witness: registering `exampleDef` twice into the empty registry
fails the second time with the uuid duplicate, and `get` still reports
the first registration. -/
theorem c2_register_duplicate_behaviour_witness :
    (register (register emptyRegistry exampleDef).1 exampleDef).2 =
        some (.uuid exampleDef.uuid) ∧
      registryGet (register (register emptyRegistry exampleDef).1
        exampleDef).1 exampleDef.id_uuid = some exampleDef ∧
      registryContains (register (register emptyRegistry exampleDef).1
        exampleDef).1 exampleDef.id_schema = true :=
  have h := c2_register_duplicate_behaviour emptyRegistry exampleDef
    ⟨List.Pairwise.nil, List.Pairwise.nil, List.Pairwise.nil⟩
  ⟨(h.2.2.2.2 rfl).1, (h.2.2.2.2 rfl).2.1, (h.2.2.2.2 rfl).2.2.2.2.2.1⟩

/-- C10: when `register(D2)` fails because one of `D2`'s identifiers
collides with an already-registered `D1`, the map entry under that
colliding key has already been replaced with `D2` by the time the error
is returned: a subsequent `get` by that identifier returns `D2`'s
definition rather than `D1`'s. -/
theorem c10_register_error_replaces (r : RegistryInner)
    (d1 d2 : ConventionDefinition) (hs : RegistrySorted r) (hne : d1 ≠ d2) :
    (btLookup r.uuid_reg d2.uuid = some d1 →
      (register r d2).2 = some (.uuid d2.uuid) ∧
      registryGet (register r d2).1 (.uuid d2.uuid) = some d2 ∧
      registryGet (register r d2).1 (.uuid d2.uuid) ≠ some d1) ∧
    (btLookup r.uuid_reg d2.uuid = none →
      btLookup r.schema_reg d2.schema_url = some d1 →
      (register r d2).2 = some (.schemaUrl d2.schema_url) ∧
      registryGet (register r d2).1 (.schemaUrl d2.schema_url) = some d2 ∧
      registryGet (register r d2).1 (.schemaUrl d2.schema_url) ≠ some d1) ∧
    (btLookup r.uuid_reg d2.uuid = none →
      btLookup r.schema_reg d2.schema_url = none →
      btLookup r.spec_reg d2.spec_url = some d1 →
      (register r d2).2 = some (.specUrl d2.spec_url) ∧
      registryGet (register r d2).1 (.specUrl d2.spec_url) = some d2 ∧
      registryGet (register r d2).1 (.specUrl d2.spec_url) ≠ some d1) := by
  refine ⟨?_, ?_, ?_⟩
  · intro hu
    have heq := register_uuid_dup_eq r d2 hs (by simp [hu])
    have hget : registryGet (register r d2).1 (.uuid d2.uuid) = some d2 := by
      rw [heq]
      simp [registryGet, btLookup_btInsert]
    refine ⟨by rw [heq], hget, ?_⟩
    rw [hget]
    intro hcontra
    injection hcontra with h2
    exact hne h2.symm
  · intro hu hsc
    have heq := register_schema_dup_eq r d2 hs hu (by simp [hsc])
    have hget : registryGet (register r d2).1 (.schemaUrl d2.schema_url) =
        some d2 := by
      rw [heq]
      simp [registryGet, btLookup_btInsert]
    refine ⟨by rw [heq], hget, ?_⟩
    rw [hget]
    intro hcontra
    injection hcontra with h2
    exact hne h2.symm
  · intro hu hsc hp
    have heq := register_spec_dup_eq r d2 hs hu hsc (by simp [hp])
    have hget : registryGet (register r d2).1 (.specUrl d2.spec_url) =
        some d2 := by
      rw [heq]
      simp [registryGet, btLookup_btInsert]
    refine ⟨by rw [heq], hget, ?_⟩
    rw [hget]
    intro hcontra
    injection hcontra with h2
    exact hne h2.symm

/-- C10, witness: `exampleDefClash` shares `exampleDef`'s uuid; its
failed registration replaces the uuid entry before the error returns. -/
theorem c10_register_error_replaces_witness :
    (register (register emptyRegistry exampleDef).1 exampleDefClash).2 =
        some (.uuid exampleDefClash.uuid) ∧
      registryGet (register (register emptyRegistry exampleDef).1
        exampleDefClash).1 (.uuid exampleDefClash.uuid) =
        some exampleDefClash ∧
      registryGet (register (register emptyRegistry exampleDef).1
        exampleDefClash).1 (.uuid exampleDefClash.uuid) ≠
        some exampleDef :=
  (c10_register_error_replaces (register emptyRegistry exampleDef).1
    exampleDef exampleDefClash
    (by unfold RegistrySorted BtSorted; decide) (by decide)).1 rfl

end ZC
